import Mathlib

/-!
Verification development for the Centrifugal-Separation repository.

The repository holds two Python variants of the same simulator:

* centrifugal_separation_app.py — embedded below in namespace App.  Its
  allocation engine (assign_to_tanks) is deterministic: it sorts the feed
  by density, clusters it into density bands, applies a proportional
  cross-contamination transfer in two passes, and normalizes each tank.
  Components and tanks are Python dicts keyed by density; we model a dict
  as an insertion-ordered association list (List (ℚ × ℚ)) with the dict
  operations dget / dset below.  All dict arithmetic in that engine is
  exact field arithmetic, so it is embedded over ℚ.

* Centrifugal.py — embedded below in namespace Cent.  Its tank-assignment
  step draws a uniform random number per component (np.random.rand) and
  occasionally shifts the component to an adjacent tank; we model the
  ambient random draws as an explicit list argument.

The physics code (drag coefficient, terminal-velocity fixed-point loop)
is floating point with a fractional power, so it is embedded over ℝ.
A positive float divided by zero yields an IEEE infinity in numpy
(and centrifugal_separation_app.py returns np.inf at Re == 0 explicitly);
we model a possibly-infinite drag coefficient as Option ℝ, none standing
for the infinity.  Dividing a finite float by that infinity yields 0.
-/

/-! ## Dict model: insertion-ordered association lists over ℚ keys -/

/-- Python dict lookup d.get(k): first binding of the key, if any. -/
def dget (m : List (ℚ × ℚ)) (k : ℚ) : Option ℚ :=
  match m with
  | [] => none
  | p :: rest => if p.1 = k then some p.2 else dget rest k

/-- Python dict lookup with default, d.get(k, v0). -/
def dgetD (m : List (ℚ × ℚ)) (k : ℚ) (v0 : ℚ) : ℚ :=
  (dget m k).getD v0

/-- Python dict assignment d[k] = v: replaces the binding in place if the
key is present (keeping its position), otherwise appends it at the end,
exactly as an insertion-ordered Python dict does. -/
def dset (m : List (ℚ × ℚ)) (k v : ℚ) : List (ℚ × ℚ) :=
  match m with
  | [] => [(k, v)]
  | p :: rest => if p.1 = k then (k, v) :: rest else p :: dset rest k v

/-- Sum of the values of a dict, sum(d.values()). -/
def tankTotal (t : List (ℚ × ℚ)) : ℚ := (t.map Prod.snd).sum

/-! ## Stable descending sort by a ℚ-valued key

Python sorted(xs, key=lambda x: -key(x)) is a stable descending sort:
elements with equal keys keep their input order.  Insertion sort below
has exactly that behaviour: an element is inserted after every earlier
element with a strictly larger key and before any element whose key is
not larger. -/

def insertByKey {α : Type} (key : α → ℚ) (x : α) : List α → List α
  | [] => [x]
  | y :: ys => if key x < key y then y :: insertByKey key x ys else x :: y :: ys

def sortByKey {α : Type} (key : α → ℚ) : List α → List α
  | [] => []
  | x :: xs => insertByKey key x (sortByKey key xs)

namespace App

/-! ## centrifugal_separation_app.py, assign_to_tanks (lines 36-79) -/

/-- The three tank dicts, tanks = {1: {}, 2: {}, 3: {}}. -/
structure Tanks where
  t1 : List (ℚ × ℚ)
  t2 : List (ℚ × ℚ)
  t3 : List (ℚ × ℚ)
deriving DecidableEq

/-- Clustering loop of assign_to_tanks (lines 42-52): walk the
density-sorted pairs, growing the current cluster while the relative
density gap to the last element of the current cluster is below the
fixed threshold 0.15, and starting a new cluster otherwise.
last is current_cluster[-1][0], the density of the last element. -/
def clusterLoop (current : List (ℚ × ℚ)) (last : ℚ) :
    List (ℚ × ℚ) → List (List (ℚ × ℚ))
  | [] => [current]
  | p :: ps =>
    if |p.1 - last| / last < 15/100 then clusterLoop (current ++ [p]) p.1 ps
    else current :: clusterLoop [p] p.1 ps

/-- sorted_data = sorted(zip(densities, assay_percentages), key=lambda x: -x[0]). -/
def sorted_data (densities assay_percentages : List ℚ) : List (ℚ × ℚ) :=
  sortByKey Prod.fst (densities.zip assay_percentages)

/-- The cluster list assign_to_tanks builds from the sorted data
(empty input never reaches this point: sorted_data[0] raises first). -/
def theClusters (densities assay_percentages : List ℚ) : List (List (ℚ × ℚ)) :=
  match sorted_data densities assay_percentages with
  | [] => []
  | p :: ps => clusterLoop [p] p.1 ps

/-- One cluster written into an (initially empty) tank dict,
tanks[tank_id][density] = assay for each pair in cluster order. -/
def tankOfCluster (c : List (ℚ × ℚ)) : List (ℚ × ℚ) :=
  c.foldl (fun t p => dset t p.1 p.2) []

/-- Lines 54-57: cluster with index idx goes to tank idx+1.  The dict
tanks only has keys 1..3, so a 4th cluster makes tanks[4] raise KeyError
and the whole call fail; that failure is the none result. -/
def assignClusters (cs : List (List (ℚ × ℚ))) : Option Tanks :=
  match cs with
  | [] => some ⟨[], [], []⟩
  | [c1] => some ⟨tankOfCluster c1, [], []⟩
  | [c1, c2] => some ⟨tankOfCluster c1, tankOfCluster c2, []⟩
  | [c1, c2, c3] => some ⟨tankOfCluster c1, tankOfCluster c2, tankOfCluster c3⟩
  | _ => none

/-- One contamination step (the body of lines 59-64 for a single tank):
for every (density, assay) snapshotted from src, src[density] loses
assay * error_rate and dst[density] = dst.get(density, 0) + assay * error_rate.
The src updates touch each key once, so they amount to scaling; the dst
updates are folded in snapshot order. -/
def contamForward (error_rate : ℚ) (src dst : List (ℚ × ℚ)) :
    List (ℚ × ℚ) × List (ℚ × ℚ) :=
  (src.map (fun p => (p.1, p.2 - p.2 * error_rate)),
   src.foldl (fun acc p => dset acc p.1 (dgetD acc p.1 0 + p.2 * error_rate)) dst)

/-- Both cross-contamination passes (lines 59-71): first tanks 1 then 2
shed into the next tank down, then tanks 3 then 2 shed into the next
tank up, each pass seeing the updated values. -/
def applyContamination (error_rate : ℚ) (T : Tanks) : Tanks :=
  let r1 := contamForward error_rate T.t1 T.t2
  let r2 := contamForward error_rate r1.2 T.t3
  let r3 := contamForward error_rate r2.2 r2.1
  let r4 := contamForward error_rate r3.2 r1.1
  ⟨r4.2, r4.1, r3.1⟩

/-- Normalization (lines 73-77): if a tank's total is positive, each
assay becomes assay / total * 100; a tank whose total is not positive is
left untouched. -/
def normalizeTank (t : List (ℚ × ℚ)) : List (ℚ × ℚ) :=
  if 0 < tankTotal t then t.map (fun p => (p.1, p.2 / tankTotal t * 100)) else t

def normalizeTanks (T : Tanks) : Tanks :=
  ⟨normalizeTank T.t1, normalizeTank T.t2, normalizeTank T.t3⟩

/-- assign_to_tanks up to, but not including, the normalization loop:
the tank contents immediately after both cross-contamination passes.
An empty feed makes sorted_data[0] raise IndexError, hence none. -/
def assign_prenorm (densities assay_percentages : List ℚ) (error_rate : ℚ) :
    Option Tanks :=
  match sorted_data densities assay_percentages with
  | [] => none
  | _ :: _ =>
    (assignClusters (theClusters densities assay_percentages)).map
      (applyContamination error_rate)

/-- Full assign_to_tanks (lines 36-79). -/
def assign_to_tanks (densities assay_percentages : List ℚ) (error_rate : ℚ) :
    Option Tanks :=
  (assign_prenorm densities assay_percentages error_rate).map normalizeTanks

/-- Number of tanks holding a positive total assay. -/
def nonemptyTankCount (T : Tanks) : ℕ :=
  (if 0 < tankTotal T.t1 then 1 else 0) +
  (if 0 < tankTotal T.t2 then 1 else 0) +
  (if 0 < tankTotal T.t3 then 1 else 0)

/-- Grand total over the three tanks. -/
def grandTotal (T : Tanks) : ℚ := tankTotal T.t1 + tankTotal T.t2 + tankTotal T.t3

/-- The app engine consumes no ambient state: this wrapper makes the
ambient random draws available to a run explicit and ignores them,
because assign_to_tanks reads nothing but its arguments. -/
def assign_with_ambient (densities assay_percentages : List ℚ) (error_rate : ℚ)
    (draws : List (ℚ × Bool)) : Option Tanks :=
  assign_to_tanks densities assay_percentages error_rate

end App

namespace Cent

/-! ## Centrifugal.py, tank assignment (lines 107-143)

Components are (density, weight) pairs, processed in feed order.  Step 2
computes each component's ideal tank from its rank in the
density-descending order; step 3 draws a uniform random number per
component and with probability 0.07 shifts it to an adjacent tank (a
middle-tank component also draws a random side).  The draws list makes
that ambient randomness explicit: one (rand_val, side-choice) pair per
component, in feed order. -/

/-- Step 2 (lines 110-122): with n components, group_size = n / 3 and
remainder = n % 3, the component of sorted rank idx ideally goes to tank
0, 1 or 2 (0-based). -/
def idealIndex (n idx : ℕ) : ℕ :=
  let group_size := n / 3
  let remainder := n % 3
  if idx < group_size + (if 0 < remainder then 1 else 0) then 0
  else if idx < 2 * group_size + (if 1 < remainder then 1 else 0) then 1
  else 2

/-- Step 3 branch (lines 132-142): rand_val below 0.93 keeps the ideal
tank; otherwise tank 0 and tank 2 shift to tank 1, and tank 1 shifts to
tank 0 or tank 2 according to the side draw. -/
def assignedTank (ideal_index : ℕ) (rand_val : ℚ) (side : Bool) : ℕ :=
  if rand_val < 93/100 then ideal_index
  else if ideal_index = 0 then 1
  else if ideal_index = 2 then 1
  else if side then 0 else 2

/-- Ideal tank of every component of the feed (in feed order): rank each
component in the stable density-descending order of the feed, then apply
idealIndex to that rank. -/
def ideal_tanks (comps : List (ℚ × ℚ)) : List ℕ :=
  let sorted := sortByKey (fun p => p.2.1) comps.enum
  comps.enum.map fun p => idealIndex comps.length (sorted.findIdx fun q => q.1 == p.1)

/-- The three tank membership lists (lines 125-143): each component,
taken in feed order, is appended to the tank chosen from its ideal tank
and its random draws. -/
def tanks (comps : List (ℚ × ℚ)) (draws : List (ℚ × Bool)) :
    List (List (ℚ × ℚ)) :=
  let assigned := (comps.zip ((ideal_tanks comps).zip draws)).map
    fun c => (assignedTank c.2.1 c.2.2.1 c.2.2.2, c.1)
  [((assigned.filter fun p => p.1 == 0).map Prod.snd),
   ((assigned.filter fun p => p.1 == 1).map Prod.snd),
   ((assigned.filter fun p => p.1 == 2).map Prod.snd)]

end Cent

/-! ## Floating-point physics over ℝ -/

/-- Float division whose result may be the IEEE infinity: dividing a
float by 0.0 yields inf in numpy arithmetic (RuntimeWarning, no
exception); none models that infinity. -/
noncomputable def fdiv (a b : ℝ) : Option ℝ :=
  if b = 0 then none else some (a / b)

namespace App

/-- reynolds_number (app, lines 8-9). -/
noncomputable def reynolds_number (density_air velocity diameter viscosity : ℝ) : ℝ :=
  density_air * velocity * diameter / viscosity

/-- drag_coefficient (app, lines 11-19).  Re == 0 returns np.inf
explicitly; the Stokes branch extends to Re < 0.5 in this variant. -/
noncomputable def drag_coefficient (Re : ℝ) : Option ℝ :=
  if Re = 0 then none
  else if Re < 0.5 then fdiv 24 Re
  else if Re < 1000 then (fdiv 24 Re).map fun c => c * (1 + 0.15 * Re ^ (0.687 : ℝ))
  else some 0.44

/-- One body of the terminal_velocity loop (app, lines 24-26): the new
velocity from the force balance.  When the drag coefficient is the
infinity, the finite numerator divided by it is 0 and sqrt 0 = 0. -/
noncomputable def vt_new (d_p rho_p rho_air mu_air g v : ℝ) : ℝ :=
  match drag_coefficient (reynolds_number rho_air v d_p mu_air) with
  | none => 0
  | some Cd => Real.sqrt (4 * (rho_p - rho_air) * g * d_p / (3 * rho_air * Cd))

/-- The bounded fixed-point loop of terminal_velocity (app, lines 23-29):
at most the fuel many iterations; on convergence (|Vt_new - Vt_guess|
below 1e-6) the loop breaks and the current guess is returned, and when
the fuel runs out the last computed velocity is returned. -/
noncomputable def tvLoop (d_p rho_p rho_air mu_air g : ℝ) : ℕ → ℝ → ℝ
  | 0, v => v
  | n + 1, v =>
    if |vt_new d_p rho_p rho_air mu_air g v - v| < 1e-6 then v
    else tvLoop d_p rho_p rho_air mu_air g n (vt_new d_p rho_p rho_air mu_air g v)

/-- terminal_velocity (app, lines 21-30): 100 iterations from the
initial guess 0.01. -/
noncomputable def terminal_velocity (d_p rho_p rho_air mu_air g : ℝ) : ℝ :=
  tvLoop d_p rho_p rho_air mu_air g 100 0.01

end App

namespace Cent

/-! ## Centrifugal.py physics (lines 33-60); module constants. -/

noncomputable def rho_air : ℝ := 1.225

noncomputable def mu_air : ℝ := 1.81e-5

noncomputable def g : ℝ := 9.81

/-- reynolds_number (Centrifugal.py, lines 39-40); rho_p is accepted and
ignored exactly as in the source. -/
noncomputable def reynolds_number (rho_p d_p V : ℝ) : ℝ :=
  rho_air * V * d_p / mu_air

/-- drag_coefficient (Centrifugal.py, lines 42-48): Stokes branch below
0.1; at Re = 0 the Stokes division 24 / 0.0 itself is the numpy
infinity. -/
noncomputable def drag_coefficient (Re_p : ℝ) : Option ℝ :=
  if Re_p < 0.1 then fdiv 24 Re_p
  else if Re_p < 1000 then (fdiv 24 Re_p).map fun c => c * (1 + 0.15 * Re_p ^ (0.687 : ℝ))
  else some 0.44

/-- Velocity computed inside one loop body (line 55) from the current
Reynolds guess; an infinite drag coefficient divides the finite
numerator to 0 and sqrt 0 = 0. -/
noncomputable def vt_of (rho_p d_p Re : ℝ) : ℝ :=
  match drag_coefficient Re with
  | none => 0
  | some Cd => Real.sqrt (4 * g * d_p * (rho_p - rho_air) / (3 * Cd * rho_air))

/-- Reynolds update of one loop body (lines 54-56). -/
noncomputable def re_step (rho_p d_p Re : ℝ) : ℝ :=
  reynolds_number rho_p d_p (vt_of rho_p d_p Re)

/-- The Reynolds guess the final loop body works from: the guess
advances while the loop neither converges (|Re_new - Re_guess| below
1e-5) nor reaches its 100th body, so it advances at most 99 times. -/
noncomputable def reLoop (rho_p d_p : ℝ) : ℕ → ℝ → ℝ
  | 0, re => re
  | n + 1, re =>
    if |re_step rho_p d_p re - re| < 1e-5 then re
    else reLoop rho_p d_p n (re_step rho_p d_p re)

noncomputable def final_re (rho_p d_p : ℝ) : ℝ := reLoop rho_p d_p 99 0.1

/-- terminal_velocity (Centrifugal.py, lines 50-60): the returned
triple (Vt, Re_new, Cd) is computed from the final Reynolds guess, both
on break and on fuel exhaustion. -/
noncomputable def terminal_velocity (rho_p d_p : ℝ) : ℝ × ℝ × Option ℝ :=
  (vt_of rho_p d_p (final_re rho_p d_p),
   re_step rho_p d_p (final_re rho_p d_p),
   drag_coefficient (final_re rho_p d_p))

end Cent

/-- Modelled from the spec (section 4.1 step 2b), for comparison with
the code: the piecewise sphere-drag correlation with the
Stokes/Schiller-Naumann boundary at exactly 0.1 and the Newton regime
from 1000 on. -/
noncomputable def drag_spec (Re : ℝ) : ℝ :=
  if Re < 0.1 then 24 / Re
  else if Re < 1000 then 24 / Re * (1 + 0.15 * Re ^ (0.687 : ℝ))
  else 0.44

/-! ## Dict lemmas -/

theorem dget_dset_self (m : List (ℚ × ℚ)) (k v : ℚ) :
    dget (dset m k v) k = some v := by
  induction m with
  | nil => simp [dget, dset]
  | cons p rest ih =>
    by_cases h : p.1 = k
    · simp [dget, dset, h]
    · simp [dget, dset, h, ih]

theorem dget_dset_ne (m : List (ℚ × ℚ)) (k v k2 : ℚ) (hne : k2 ≠ k) :
    dget (dset m k v) k2 = dget m k2 := by
  have hkk2 : ¬(k = k2) := fun h => hne h.symm
  induction m with
  | nil => simp [dget, dset, hkk2]
  | cons p rest ih =>
    by_cases h : p.1 = k
    · subst h
      simp [dget, dset, hkk2]
    · by_cases h2 : p.1 = k2
      · simp [dget, dset, h, h2, hne]
      · simp [dget, dset, h, h2, ih]

theorem dget_mem (m : List (ℚ × ℚ)) (k v : ℚ) (h : dget m k = some v) :
    (k, v) ∈ m := by
  induction m with
  | nil => simp [dget] at h
  | cons p rest ih =>
    by_cases hp : p.1 = k
    · simp only [dget, if_pos hp, Option.some.injEq] at h
      have hpkv : p = (k, v) := by
        obtain ⟨a, b⟩ := p
        simp only at hp h
        rw [hp, h]
      rw [← hpkv]
      exact List.mem_cons_self p rest
    · simp only [dget, if_neg hp] at h
      exact List.mem_cons_of_mem _ (ih h)

theorem dgetD_nonneg (m : List (ℚ × ℚ)) (k : ℚ) (h : ∀ p ∈ m, 0 ≤ p.2) :
    0 ≤ dgetD m k 0 := by
  unfold dgetD
  cases hg : dget m k with
  | none => simp
  | some v => simpa using h (k, v) (dget_mem m k v hg)

theorem tankTotal_nil : tankTotal [] = 0 := rfl

theorem tankTotal_cons (p : ℚ × ℚ) (t : List (ℚ × ℚ)) :
    tankTotal (p :: t) = p.2 + tankTotal t := by
  simp [tankTotal]

theorem tankTotal_dset (m : List (ℚ × ℚ)) (k v : ℚ) :
    tankTotal (dset m k v) = tankTotal m - dgetD m k 0 + v := by
  induction m with
  | nil => simp [dset, tankTotal, dgetD, dget]
  | cons p rest ih =>
    by_cases h : p.1 = k
    · simp [dset, h, tankTotal_cons, dgetD, dget]
      ring
    · simp only [dset, h, if_false, tankTotal_cons, ih, dgetD, dget]
      ring

theorem tankTotal_nonneg (t : List (ℚ × ℚ)) (h : ∀ p ∈ t, 0 ≤ p.2) :
    0 ≤ tankTotal t := by
  induction t with
  | nil => simp [tankTotal]
  | cons p rest ih =>
    rw [tankTotal_cons]
    have h1 := h p (List.mem_cons_self p rest)
    have h2 := ih (fun q hq => h q (List.mem_cons_of_mem p hq))
    linarith

theorem tankTotal_zero_all_zero (t : List (ℚ × ℚ)) (h : ∀ p ∈ t, 0 ≤ p.2)
    (hz : tankTotal t = 0) : ∀ p ∈ t, p.2 = 0 := by
  induction t with
  | nil => simp
  | cons p rest ih =>
    rw [tankTotal_cons] at hz
    have h1 := h p (List.mem_cons_self p rest)
    have h2 := tankTotal_nonneg rest (fun q hq => h q (List.mem_cons_of_mem p hq))
    intro q hq
    rcases List.mem_cons.mp hq with hq | hq
    · subst hq; linarith
    · exact ih (fun r hr => h r (List.mem_cons_of_mem p hr)) (by linarith) q hq

theorem dget_map_snd (m : List (ℚ × ℚ)) (f : ℚ → ℚ) (k : ℚ) :
    dget (m.map fun p => (p.1, f p.2)) k = (dget m k).map f := by
  induction m with
  | nil => simp [dget]
  | cons p rest ih =>
    by_cases h : p.1 = k
    · simp [dget, h]
    · simp [dget, h, ih]

theorem dset_nonneg (m : List (ℚ × ℚ)) (k v : ℚ) (hm : ∀ p ∈ m, 0 ≤ p.2)
    (hv : 0 ≤ v) : ∀ p ∈ dset m k v, 0 ≤ p.2 := by
  induction m with
  | nil => simp [dset, hv]
  | cons p rest ih =>
    by_cases h : p.1 = k
    · simp only [dset, h, if_true]
      intro q hq
      rcases List.mem_cons.mp hq with hq | hq
      · subst hq; exact hv
      · exact hm q (List.mem_cons_of_mem p hq)
    · simp only [dset, h, if_false]
      intro q hq
      rcases List.mem_cons.mp hq with hq | hq
      · rw [hq]; exact hm p (List.mem_cons_self p rest)
      · exact ih (fun r hr => hm r (List.mem_cons_of_mem p hr)) q hq

/-! ## Sort and cluster lemmas -/

theorem insertByKey_perm {α : Type} (key : α → ℚ) (x : α) (l : List α) :
    (insertByKey key x l).Perm (x :: l) := by
  induction l with
  | nil => simp [insertByKey]
  | cons y ys ih =>
    by_cases h : key x < key y
    · simp only [insertByKey, if_pos h]
      exact (ih.cons y).trans (List.Perm.swap x y ys)
    · simp [insertByKey, if_neg h]

theorem sortByKey_perm {α : Type} (key : α → ℚ) (l : List α) :
    (sortByKey key l).Perm l := by
  induction l with
  | nil => simp [sortByKey]
  | cons x xs ih =>
    exact (insertByKey_perm key x (sortByKey key xs)).trans (ih.cons x)

theorem clusterLoop_sublist (ps : List (ℚ × ℚ)) :
    ∀ current last cl, cl ∈ App.clusterLoop current last ps →
      cl.Sublist (current ++ ps) := by
  induction ps with
  | nil =>
    intro current last cl hcl
    simp only [App.clusterLoop, List.mem_singleton] at hcl
    subst hcl
    simp
  | cons p ps ih =>
    intro current last cl hcl
    simp only [App.clusterLoop] at hcl
    by_cases h : |p.1 - last| / last < 15/100
    · rw [if_pos h] at hcl
      have hs := ih (current ++ [p]) p.1 cl hcl
      simpa using hs
    · rw [if_neg h] at hcl
      rcases List.mem_cons.mp hcl with hcl | hcl
      · rw [hcl]
        exact List.sublist_append_left current (p :: ps)
      · have hs := ih [p] p.1 cl hcl
        exact hs.trans (List.sublist_append_right current (p :: ps))

theorem clusterLoop_total (ps : List (ℚ × ℚ)) :
    ∀ current last,
      ((App.clusterLoop current last ps).map tankTotal).sum =
        tankTotal current + tankTotal ps := by
  induction ps with
  | nil => intro current last; simp [App.clusterLoop, tankTotal]
  | cons p ps ih =>
    intro current last
    simp only [App.clusterLoop]
    by_cases h : |p.1 - last| / last < 15/100
    · rw [if_pos h, ih]
      simp only [tankTotal, List.map_append, List.sum_append, List.map_cons,
        List.sum_cons, List.map_nil, List.sum_nil]
      ring
    · rw [if_neg h]
      simp only [List.map_cons, List.sum_cons, ih]
      simp only [tankTotal, List.map_cons, List.sum_cons, List.map_nil,
        List.sum_nil]
      ring

/-! ## Tank construction lemmas -/

theorem foldl_dset_total (c : List (ℚ × ℚ)) :
    ∀ acc : List (ℚ × ℚ), (c.map Prod.fst).Nodup →
      (∀ p ∈ c, dget acc p.1 = none) →
      tankTotal (c.foldl (fun t p => dset t p.1 p.2) acc) =
        tankTotal acc + tankTotal c := by
  induction c with
  | nil => intro acc _ _; simp [tankTotal]
  | cons p rest ih =>
    intro acc hnd hfresh
    simp only [List.foldl_cons]
    have hfresh2 : ∀ q ∈ rest, dget (dset acc p.1 p.2) q.1 = none := by
      intro q hq
      have hne : q.1 ≠ p.1 := by
        simp only [List.map_cons, List.nodup_cons] at hnd
        intro hcon
        exact hnd.1 (hcon ▸ List.mem_map_of_mem Prod.fst hq)
      rw [dget_dset_ne _ _ _ _ hne]
      exact hfresh q (List.mem_cons_of_mem p hq)
    have hnd2 : (rest.map Prod.fst).Nodup := by
      simp only [List.map_cons, List.nodup_cons] at hnd
      exact hnd.2
    rw [ih (dset acc p.1 p.2) hnd2 hfresh2, tankTotal_dset, tankTotal_cons]
    have hz : dgetD acc p.1 0 = 0 := by
      unfold dgetD
      rw [hfresh p (List.mem_cons_self p rest)]
      rfl
    rw [hz]
    ring

theorem tankOfCluster_total (c : List (ℚ × ℚ)) (hnd : (c.map Prod.fst).Nodup) :
    tankTotal (App.tankOfCluster c) = tankTotal c := by
  unfold App.tankOfCluster
  rw [foldl_dset_total c [] hnd (by intro p _; rfl)]
  simp [tankTotal]

theorem foldl_dset_nonneg (c : List (ℚ × ℚ)) :
    ∀ acc : List (ℚ × ℚ), (∀ p ∈ acc, 0 ≤ p.2) → (∀ p ∈ c, 0 ≤ p.2) →
      ∀ p ∈ c.foldl (fun t q => dset t q.1 q.2) acc, 0 ≤ p.2 := by
  induction c with
  | nil => intro acc hacc _; simpa using hacc
  | cons p rest ih =>
    intro acc hacc hc
    simp only [List.foldl_cons]
    exact ih (dset acc p.1 p.2)
      (dset_nonneg acc p.1 p.2 hacc (hc p (List.mem_cons_self p rest)))
      (fun q hq => hc q (List.mem_cons_of_mem p hq))

theorem tankOfCluster_nonneg (c : List (ℚ × ℚ)) (hc : ∀ p ∈ c, 0 ≤ p.2) :
    ∀ p ∈ App.tankOfCluster c, 0 ≤ p.2 := by
  unfold App.tankOfCluster
  exact foldl_dset_nonneg c [] (by simp) hc

/-! ## Contamination lemmas -/

theorem contamForward_fst_total (e : ℚ) (s d : List (ℚ × ℚ)) :
    tankTotal (App.contamForward e s d).1 = tankTotal s - tankTotal s * e := by
  unfold App.contamForward
  induction s with
  | nil => simp [tankTotal]
  | cons p rest ih =>
    simp only [List.map_cons, tankTotal_cons] at *
    rw [ih]
    ring

theorem contamForward_snd_total (e : ℚ) (s : List (ℚ × ℚ)) :
    ∀ d : List (ℚ × ℚ),
      tankTotal (App.contamForward e s d).2 = tankTotal d + tankTotal s * e := by
  unfold App.contamForward
  induction s with
  | nil => intro d; simp [tankTotal]
  | cons p rest ih =>
    intro d
    simp only [List.foldl_cons]
    rw [ih (dset d p.1 (dgetD d p.1 0 + p.2 * e)), tankTotal_dset, tankTotal_cons]
    ring

theorem applyContamination_total (e : ℚ) (T : App.Tanks) :
    App.grandTotal (App.applyContamination e T) = App.grandTotal T := by
  unfold App.applyContamination App.grandTotal
  simp only [contamForward_fst_total, contamForward_snd_total]
  ring

theorem contamForward_fst_nonneg (e : ℚ) (he0 : 0 ≤ e) (he1 : e ≤ 1)
    (s d : List (ℚ × ℚ)) (hs : ∀ p ∈ s, 0 ≤ p.2) :
    ∀ p ∈ (App.contamForward e s d).1, 0 ≤ p.2 := by
  unfold App.contamForward
  intro p hp
  simp only [List.mem_map] at hp
  obtain ⟨q, hq, hqe⟩ := hp
  have h0 := hs q hq
  rw [← hqe]
  simp only
  nlinarith

theorem contamForward_snd_nonneg (e : ℚ) (he0 : 0 ≤ e) (s : List (ℚ × ℚ)) :
    ∀ d : List (ℚ × ℚ), (∀ p ∈ s, 0 ≤ p.2) → (∀ p ∈ d, 0 ≤ p.2) →
      ∀ p ∈ (App.contamForward e s d).2, 0 ≤ p.2 := by
  unfold App.contamForward
  induction s with
  | nil => intro d _ hd; simpa using hd
  | cons p rest ih =>
    intro d hs hd
    simp only [List.foldl_cons]
    have hv : 0 ≤ dgetD d p.1 0 + p.2 * e := by
      have h1 := dgetD_nonneg d p.1 hd
      have h2 := hs p (List.mem_cons_self p rest)
      nlinarith
    exact ih (dset d p.1 (dgetD d p.1 0 + p.2 * e))
      (fun q hq => hs q (List.mem_cons_of_mem p hq))
      (dset_nonneg d p.1 _ hd hv)

theorem applyContamination_nonneg (e : ℚ) (he0 : 0 ≤ e) (he1 : e ≤ 1)
    (T : App.Tanks) (h1 : ∀ p ∈ T.t1, 0 ≤ p.2) (h2 : ∀ p ∈ T.t2, 0 ≤ p.2)
    (h3 : ∀ p ∈ T.t3, 0 ≤ p.2) :
    (∀ p ∈ (App.applyContamination e T).t1, 0 ≤ p.2) ∧
    (∀ p ∈ (App.applyContamination e T).t2, 0 ≤ p.2) ∧
    (∀ p ∈ (App.applyContamination e T).t3, 0 ≤ p.2) := by
  obtain ⟨a, b, c⟩ := T
  simp only at h1 h2 h3
  dsimp only [App.applyContamination]
  have r1fst := contamForward_fst_nonneg e he0 he1 a b h1
  have r1snd := contamForward_snd_nonneg e he0 a b h1 h2
  have r2fst := contamForward_fst_nonneg e he0 he1
    (App.contamForward e a b).2 c r1snd
  have r2snd := contamForward_snd_nonneg e he0
    (App.contamForward e a b).2 c r1snd h3
  have r3fst := contamForward_fst_nonneg e he0 he1
    (App.contamForward e (App.contamForward e a b).2 c).2
    (App.contamForward e (App.contamForward e a b).2 c).1 r2snd
  have r3snd := contamForward_snd_nonneg e he0
    (App.contamForward e (App.contamForward e a b).2 c).2
    (App.contamForward e (App.contamForward e a b).2 c).1 r2snd r2fst
  have r4fst := contamForward_fst_nonneg e he0 he1
    (App.contamForward e (App.contamForward e (App.contamForward e a b).2 c).2
      (App.contamForward e (App.contamForward e a b).2 c).1).2
    (App.contamForward e a b).1 r3snd
  have r4snd := contamForward_snd_nonneg e he0
    (App.contamForward e (App.contamForward e (App.contamForward e a b).2 c).2
      (App.contamForward e (App.contamForward e a b).2 c).1).2
    (App.contamForward e a b).1 r3snd r1fst
  exact ⟨r4snd, r4fst, r3fst⟩

/-! ## Normalization lemmas -/

theorem tankTotal_map_scale (t : List (ℚ × ℚ)) (c : ℚ) :
    tankTotal (t.map fun p => (p.1, p.2 * c)) = tankTotal t * c := by
  induction t with
  | nil => simp [tankTotal]
  | cons p rest ih =>
    simp only [List.map_cons, tankTotal_cons, ih]
    ring

theorem tankTotal_normalizeTank (t : List (ℚ × ℚ)) (h : 0 < tankTotal t) :
    tankTotal (App.normalizeTank t) = 100 := by
  unfold App.normalizeTank
  rw [if_pos h]
  have hfe : (fun p : ℚ × ℚ => (p.1, p.2 / tankTotal t * 100)) =
      fun p : ℚ × ℚ => (p.1, p.2 * (100 / tankTotal t)) := by
    funext p
    rw [div_mul_eq_mul_div, mul_div_assoc]
  rw [hfe, tankTotal_map_scale]
  field_simp

theorem normalizeTank_of_not_pos (t : List (ℚ × ℚ)) (h : ¬ 0 < tankTotal t) :
    App.normalizeTank t = t := by
  unfold App.normalizeTank
  rw [if_neg h]

theorem dgetD_normalizeTank (t : List (ℚ × ℚ)) (k : ℚ) :
    dgetD (App.normalizeTank t) k 0 =
      if 0 < tankTotal t then dgetD t k 0 / tankTotal t * 100 else dgetD t k 0 := by
  unfold App.normalizeTank
  by_cases h : 0 < tankTotal t
  · rw [if_pos h, if_pos h]
    unfold dgetD
    have hmap : dget (t.map fun p => (p.1, p.2 / tankTotal t * 100)) k =
        (dget t k).map fun v => v / tankTotal t * 100 :=
      dget_map_snd t (fun v => v / tankTotal t * 100) k
    rw [hmap]
    cases dget t k with
    | none => simp
    | some v => simp
  · rw [if_neg h, if_neg h]

/-! ## Zero error rate -/

theorem contamForward_zero_fst (s d : List (ℚ × ℚ)) :
    (App.contamForward 0 s d).1 = s := by
  unfold App.contamForward
  simp

theorem contamForward_zero_snd_dgetD (s : List (ℚ × ℚ)) :
    ∀ d k, dgetD (App.contamForward 0 s d).2 k 0 = dgetD d k 0 := by
  have hfold : ∀ (s2 d : List (ℚ × ℚ)) (k : ℚ),
      dgetD (s2.foldl (fun acc p => dset acc p.1 (dgetD acc p.1 0 + p.2 * 0)) d) k 0 =
        dgetD d k 0 := by
    intro s2
    induction s2 with
    | nil => intro d k; rfl
    | cons p rest ih =>
      intro d k
      simp only [List.foldl_cons]
      rw [ih]
      by_cases h : k = p.1
      · subst h
        unfold dgetD
        rw [dget_dset_self]
        simp
      · unfold dgetD
        rw [dget_dset_ne _ _ _ _ h]
  intro d k
  exact hfold s d k

theorem contamForward_zero_snd_total (s d : List (ℚ × ℚ)) :
    tankTotal (App.contamForward 0 s d).2 = tankTotal d := by
  rw [contamForward_snd_total]
  ring

/-- Composition-level equality of two tank dicts: same total and the
same assay for every density key (reading an absent key as 0). -/
def sameComposition (x y : List (ℚ × ℚ)) : Prop :=
  tankTotal x = tankTotal y ∧ ∀ k, dgetD x k 0 = dgetD y k 0

theorem sameComposition_refl (x : List (ℚ × ℚ)) : sameComposition x x :=
  ⟨rfl, fun _ => rfl⟩

theorem sameComposition_trans {x y z : List (ℚ × ℚ)}
    (h1 : sameComposition x y) (h2 : sameComposition y z) : sameComposition x z :=
  ⟨h1.1.trans h2.1, fun k => (h1.2 k).trans (h2.2 k)⟩

theorem contamForward_zero_snd_sameComposition (s d : List (ℚ × ℚ)) :
    sameComposition (App.contamForward 0 s d).2 d :=
  ⟨contamForward_zero_snd_total s d, fun k => contamForward_zero_snd_dgetD s d k⟩

theorem sameComposition_normalize {x y : List (ℚ × ℚ)}
    (h : sameComposition x y) :
    ∀ k, dgetD (App.normalizeTank x) k 0 = dgetD (App.normalizeTank y) k 0 := by
  intro k
  rw [dgetD_normalizeTank, dgetD_normalizeTank, h.1, h.2 k]

theorem applyContamination_zero (T : App.Tanks) :
    sameComposition (App.applyContamination 0 T).t1 T.t1 ∧
    sameComposition (App.applyContamination 0 T).t2 T.t2 ∧
    sameComposition (App.applyContamination 0 T).t3 T.t3 := by
  obtain ⟨a, b, c⟩ := T
  dsimp only [App.applyContamination]
  refine ⟨?_, ?_, ?_⟩
  · rw [contamForward_zero_fst a b]
    exact contamForward_zero_snd_sameComposition _ a
  · rw [contamForward_zero_fst ((App.contamForward 0 a b).2) c]
    rw [contamForward_zero_fst
      ((App.contamForward 0 (App.contamForward 0 (App.contamForward 0 a b).2 c).2
        ((App.contamForward 0 a b).2)).2)
      ((App.contamForward 0 a b).1)]
    exact sameComposition_trans (contamForward_zero_snd_sameComposition _ _)
      (contamForward_zero_snd_sameComposition a b)
  · rw [contamForward_zero_fst
      ((App.contamForward 0 ((App.contamForward 0 a b).2) c).2)
      ((App.contamForward 0 ((App.contamForward 0 a b).2) c).1)]
    exact contamForward_zero_snd_sameComposition _ c

/-! ## Physics lemmas -/

theorem fdiv_of_ne (a b : ℝ) (h : b ≠ 0) : fdiv a b = some (a / b) := by
  unfold fdiv
  rw [if_neg h]

theorem app_drag_coefficient_zero : App.drag_coefficient 0 = none := by
  unfold App.drag_coefficient
  rw [if_pos rfl]

theorem cent_drag_coefficient_zero : Cent.drag_coefficient 0 = none := by
  unfold Cent.drag_coefficient fdiv
  norm_num

theorem App.vt_new_matched (d_p rho mu_air g v : ℝ) :
    App.vt_new d_p rho rho mu_air g v = 0 := by
  unfold App.vt_new
  cases App.drag_coefficient (App.reynolds_number rho v d_p mu_air) with
  | none => rfl
  | some Cd =>
    simp only
    rw [show (4 : ℝ) * (rho - rho) * g * d_p = 0 by ring, zero_div,
      Real.sqrt_zero]

theorem App.tvLoop_succ (d_p rho_p rho_air mu_air g : ℝ) (n : ℕ) (v : ℝ) :
    App.tvLoop d_p rho_p rho_air mu_air g (n + 1) v =
      if |App.vt_new d_p rho_p rho_air mu_air g v - v| < 1e-6 then v
      else App.tvLoop d_p rho_p rho_air mu_air g n
        (App.vt_new d_p rho_p rho_air mu_air g v) := rfl

theorem App.tvLoop_iterate (d_p rho_p rho_air mu_air g : ℝ) (n : ℕ) :
    ∀ v, ∃ k ≤ n, App.tvLoop d_p rho_p rho_air mu_air g n v =
      (fun w => App.vt_new d_p rho_p rho_air mu_air g w)^[k] v := by
  induction n with
  | zero => intro v; exact ⟨0, le_rfl, rfl⟩
  | succ n ih =>
    intro v
    rw [App.tvLoop_succ]
    by_cases h : |App.vt_new d_p rho_p rho_air mu_air g v - v| < 1e-6
    · exact ⟨0, Nat.zero_le _, by rw [if_pos h, Function.iterate_zero_apply]⟩
    · obtain ⟨k, hk, he⟩ := ih (App.vt_new d_p rho_p rho_air mu_air g v)
      exact ⟨k + 1, Nat.succ_le_succ hk,
        by rw [if_neg h, he, Function.iterate_succ_apply]⟩

theorem Cent.reLoop_succ (rho_p d_p : ℝ) (n : ℕ) (re : ℝ) :
    Cent.reLoop rho_p d_p (n + 1) re =
      if |Cent.re_step rho_p d_p re - re| < 1e-5 then re
      else Cent.reLoop rho_p d_p n (Cent.re_step rho_p d_p re) := rfl

theorem Cent.reLoop_iterate (rho_p d_p : ℝ) (n : ℕ) :
    ∀ re, ∃ k ≤ n, Cent.reLoop rho_p d_p n re =
      (Cent.re_step rho_p d_p)^[k] re := by
  induction n with
  | zero => intro re; exact ⟨0, le_rfl, rfl⟩
  | succ n ih =>
    intro re
    rw [Cent.reLoop_succ]
    by_cases h : |Cent.re_step rho_p d_p re - re| < 1e-5
    · exact ⟨0, Nat.zero_le _, by rw [if_pos h, Function.iterate_zero_apply]⟩
    · obtain ⟨k, hk, he⟩ := ih (Cent.re_step rho_p d_p re)
      exact ⟨k + 1, Nat.succ_le_succ hk,
        by rw [if_neg h, he, Function.iterate_succ_apply]⟩

theorem App.terminal_velocity_matched (d_p rho mu_air g : ℝ)
    (hd : 0 < d_p) (hr : 0 < rho) (hm : 0 < mu_air) :
    App.terminal_velocity d_p rho rho mu_air g = 0 := by
  unfold App.terminal_velocity
  rw [show (100 : ℕ) = 99 + 1 from rfl, App.tvLoop_succ]
  rw [App.vt_new_matched]
  rw [if_neg (by
    rw [abs_sub_comm, sub_zero, abs_of_pos (by norm_num : (0 : ℝ) < 0.01)]
    norm_num)]
  rw [show (99 : ℕ) = 98 + 1 from rfl, App.tvLoop_succ]
  rw [App.vt_new_matched]
  rw [if_pos (by norm_num)]

/-! ## Claim C4 -/

/-- C4 counterexample: at Re = 0.25 the app variant of drag_coefficient is
still in its Stokes branch (its boundary is 0.5, not 0.1) and returns
24 / 0.25 = 96, not the Schiller-Naumann value the claim prescribes for
0.1 <= Re < 1000, which is strictly larger than 96. -/
theorem drag_boundary_counterexample :
    App.drag_coefficient 0.25 ≠
      some (24 / (0.25 : ℝ) * (1 + 0.15 * (0.25 : ℝ) ^ (0.687 : ℝ))) := by
  have h1 : App.drag_coefficient 0.25 = some (24 / (0.25 : ℝ)) := by
    unfold App.drag_coefficient
    rw [if_neg (by norm_num), if_pos (by norm_num), fdiv_of_ne _ _ (by norm_num)]
  rw [h1]
  simp only [ne_eq, Option.some.injEq]
  intro hcon
  norm_num at hcon

/-- C4 (amended): for every Re > 0 the Centrifugal.py drag_coefficient
follows exactly the claimed three-branch correlation with the Stokes
boundary at 0.1; the app variant agrees except that its Stokes branch
extends to Re < 0.5, where it returns 24 / Re. -/
theorem drag_coefficient_regimes (Re : ℝ) (h : 0 < Re) :
    Cent.drag_coefficient Re = some (drag_spec Re) ∧
    App.drag_coefficient Re =
      some (if Re < 0.5 then 24 / Re else drag_spec Re) := by
  have hne : Re ≠ 0 := ne_of_gt h
  constructor
  · unfold Cent.drag_coefficient drag_spec
    by_cases h1 : Re < 0.1
    · rw [if_pos h1, if_pos h1, fdiv_of_ne _ _ hne]
    · rw [if_neg h1, if_neg h1]
      by_cases h2 : Re < 1000
      · rw [if_pos h2, if_pos h2, fdiv_of_ne _ _ hne]
        rfl
      · rw [if_neg h2, if_neg h2]
  · unfold App.drag_coefficient drag_spec
    rw [if_neg hne]
    by_cases h1 : Re < 0.5
    · rw [if_pos h1, if_pos h1, fdiv_of_ne _ _ hne]
    · have h01 : ¬ Re < 0.1 := fun hcon => h1 (by linarith)
      rw [if_neg h1, if_neg h1]
      by_cases h2 : Re < 1000
      · rw [if_pos h2, fdiv_of_ne _ _ hne, if_neg h01, if_pos h2]
        rfl
      · rw [if_neg h2, if_neg h01, if_neg h2]

/-- C4 witness: the amended regime theorem applied at Re = 1, where both
variants return the Schiller-Naumann value. -/
theorem drag_coefficient_regimes_witness :
    Cent.drag_coefficient 1 = some (drag_spec 1) ∧
    App.drag_coefficient 1 =
      some (if (1 : ℝ) < 0.5 then 24 / 1 else drag_spec 1) :=
  drag_coefficient_regimes 1 (by norm_num)

/-! ## Claim C3 -/

/-- C3 counterexample: at Reynolds number exactly 0 neither variant
reports any defined failure; the app variant returns np.inf outright and
the Centrifugal variant computes 24 / 0.0, the numpy infinity.  The none
value is this embedding of that infinite drag coefficient, so the code
does silently produce an infinite drag coefficient. -/
theorem drag_zero_counterexample :
    App.drag_coefficient 0 = none ∧ Cent.drag_coefficient 0 = none :=
  ⟨app_drag_coefficient_zero, cent_drag_coefficient_zero⟩

/-- C3 (amended): at Re = 0 both drag functions yield the IEEE infinity
(modelled none) instead of a DragUndefined failure, and no error is
reported anywhere; the app solver nevertheless returns terminal velocity
0 for a density-matched particle, because the force-balance numerator is
0 (and dividing the finite numerator by an infinite drag coefficient
also gives 0). -/
theorem drag_zero_silent_infinity (d_p rho mu_air g : ℝ)
    (hd : 0 < d_p) (hr : 0 < rho) (hm : 0 < mu_air) :
    App.drag_coefficient 0 = none ∧ Cent.drag_coefficient 0 = none ∧
    App.terminal_velocity d_p rho rho mu_air g = 0 :=
  ⟨app_drag_coefficient_zero, cent_drag_coefficient_zero,
   App.terminal_velocity_matched d_p rho mu_air g hd hr hm⟩

/-- C3 witness: the amended theorem at diameter 0.001, density 1.2 for
both particle and fluid, viscosity 0.000018 and gravity 9.81. -/
theorem drag_zero_silent_infinity_witness :
    App.drag_coefficient 0 = none ∧ Cent.drag_coefficient 0 = none ∧
    App.terminal_velocity 0.001 1.2 1.2 0.000018 9.81 = 0 :=
  drag_zero_silent_infinity 0.001 1.2 0.000018 9.81
    (by norm_num) (by norm_num) (by norm_num)

/-! ## Claim C6 -/

/-- C6: both terminal-velocity solvers reach their result within the
fixed iteration budget: the app solver result is the k-fold application
of its velocity update to the initial guess 0.01 for some k at most 100,
and the Centrifugal solver's final Reynolds guess is the k-fold
application of its Reynolds update to the initial guess 0.1 for some k
at most 99 (its 100th and last loop body works from that guess).  The
loops are structurally bounded, so the solver always terminates. -/
theorem solver_iteration_bounded (d_p rho_p rho_air mu_air g : ℝ)
    (hd : 0 < d_p) (hp : 0 < rho_p) (ha : 0 < rho_air) (hm : 0 < mu_air) :
    (∃ k ≤ 100, App.terminal_velocity d_p rho_p rho_air mu_air g =
      (fun w => App.vt_new d_p rho_p rho_air mu_air g w)^[k] 0.01) ∧
    (∃ k ≤ 99, Cent.final_re rho_p d_p = (Cent.re_step rho_p d_p)^[k] 0.1) :=
  ⟨App.tvLoop_iterate d_p rho_p rho_air mu_air g 100 0.01,
   Cent.reLoop_iterate rho_p d_p 99 0.1⟩

/-- C6 witness: the bound applied at diameter 0.001, particle density
2500, air density 1.225, viscosity 0.0000181, gravity 9.81. -/
theorem solver_iteration_bounded_witness :
    (∃ k ≤ 100, App.terminal_velocity 0.001 2500 1.225 0.0000181 9.81 =
      (fun w => App.vt_new 0.001 2500 1.225 0.0000181 9.81 w)^[k] 0.01) ∧
    (∃ k ≤ 99, Cent.final_re 2500 0.001 = (Cent.re_step 2500 0.001)^[k] 0.1) :=
  solver_iteration_bounded 0.001 2500 1.225 0.0000181 9.81
    (by norm_num) (by norm_num) (by norm_num) (by norm_num)

/-! ## Claim C7 -/

/-- C7 counterexample: the Centrifugal.py tank assignment depends on the
ambient random draws.  On the same single-component feed, a run whose
uniform draw is 0.5 puts the component in tank 1 while a run whose draw
is 0.95 puts it in tank 2, so two runs on identical inputs differ. -/
theorem centrifugal_tanks_random_counterexample :
    Cent.tanks [(2500, 25)] [(1/2, false)] ≠
      Cent.tanks [(2500, 25)] [(95/100, false)] := by
  norm_num [Cent.tanks, Cent.ideal_tanks, Cent.idealIndex, Cent.assignedTank,
    sortByKey, insertByKey, List.enum, List.findIdx, List.findIdx.go,
    List.filter, beq_iff_eq]
  decide

/-- C7 (amended): the app-variant allocation engine is a deterministic
pure function - its output is invariant under the ambient random draws a
run could observe - but the Centrifugal.py tank assignment is not: there
are two draw sequences giving different outputs on the same feed. -/
theorem allocation_determinism_split :
    (∀ (densities assays : List ℚ) (e : ℚ) (dr1 dr2 : List (ℚ × Bool)),
      App.assign_with_ambient densities assays e dr1 =
        App.assign_with_ambient densities assays e dr2) ∧
    Cent.tanks [(2500, 30)] [(1/2, false)] ≠
      Cent.tanks [(2500, 30)] [(95/100, false)] := by
  constructor
  · intro densities assays e dr1 dr2
    rfl
  · norm_num [Cent.tanks, Cent.ideal_tanks, Cent.idealIndex, Cent.assignedTank,
      sortByKey, insertByKey, List.enum, List.findIdx, List.findIdx.go,
      List.filter, beq_iff_eq]
    decide

/-! ## Claim C2 -/

theorem assignClusters_of_long (cs : List (List (ℚ × ℚ))) (h : 3 < cs.length) :
    App.assignClusters cs = none := by
  match cs, h with
  | c1 :: c2 :: c3 :: c4 :: rest, _ => rfl
  | [], h => simp at h
  | [c1], h => simp at h
  | [c1, c2], h => simp at h
  | [c1, c2, c3], h => simp at h

/-- C2 counterexample: a feed whose clustering yields four clusters
(every relative density gap is at least 15 percent).  Python reaches
tanks[4] and raises KeyError, so the call returns nothing at all, where
the claim says it still returns a three-tank result. -/
theorem four_cluster_counterexample :
    App.assign_to_tanks [10000, 5000, 2000, 800] [25, 25, 25, 25] (7/100) =
      none := by
  norm_num [App.assign_to_tanks, App.assign_prenorm, App.sorted_data, sortByKey,
    insertByKey, App.theClusters, App.clusterLoop, App.assignClusters]

/-- C2 (amended): whenever the density-sorted clustering produces more
than three clusters, assign_to_tanks fails (the KeyError on tanks[4],
modelled none) instead of folding the extra clusters into tank 3. -/
theorem too_many_clusters_fail (densities assays : List ℚ) (e : ℚ)
    (h : 3 < (App.theClusters densities assays).length) :
    App.assign_to_tanks densities assays e = none := by
  unfold App.assign_to_tanks App.assign_prenorm
  cases hs : App.sorted_data densities assays with
  | nil => rfl
  | cons p ps =>
    rw [assignClusters_of_long _ h]
    rfl

/-- C2 witness: the four-cluster feed has cluster count 4 and the engine
returns none on it. -/
theorem too_many_clusters_fail_witness :
    3 < (App.theClusters [10000, 5000, 2000, 800] [25, 25, 25, 25]).length ∧
    App.assign_to_tanks [10000, 5000, 2000, 800] [25, 25, 25, 25] (7/100) =
      none :=
  ⟨by norm_num [App.theClusters, App.sorted_data, sortByKey, insertByKey,
      App.clusterLoop],
   too_many_clusters_fail _ _ _ (by
     norm_num [App.theClusters, App.sorted_data, sortByKey, insertByKey,
       App.clusterLoop])⟩

/-! ## Claim C8 -/

/-- C8 counterexample: two distinct components that share density 2000
(assays 30 and 20).  The engine keys everything by density, so tank 1
ends with a single entry (the claim demands two separate entries), and
the total assay present after cluster assignment and contamination is
20: the first component's 30 was overwritten, not kept. -/
theorem duplicate_density_counterexample :
    (App.assign_to_tanks [2000, 2000] [30, 20] 0).map
        (fun T => (T.t1.length, dgetD T.t1 2000 0)) = some (1, 100) ∧
    (App.assign_prenorm [2000, 2000] [30, 20] 0).map App.grandTotal =
      some 20 := by
  constructor
  · norm_num [App.assign_to_tanks, App.assign_prenorm, App.sorted_data,
      sortByKey, insertByKey, App.theClusters, App.clusterLoop,
      App.assignClusters, App.tankOfCluster, App.applyContamination,
      App.contamForward, dset, dgetD, dget, App.normalizeTanks,
      App.normalizeTank, tankTotal]
  · norm_num [App.assign_prenorm, App.sorted_data,
      sortByKey, insertByKey, App.theClusters, App.clusterLoop,
      App.assignClusters, App.tankOfCluster, App.applyContamination,
      App.contamForward, dset, dgetD, dget, App.grandTotal, tankTotal]

/-- C8 (amended): the engine identifies components by density alone, so
a feed with two components of equal density behaves exactly as if only
the later one (in the stable sorted order) had been supplied: the
earlier assay is overwritten by the dict assignment and lost. -/
theorem duplicate_density_overwrite (d a1 a2 e : ℚ) (hd : 0 < d) :
    App.assign_to_tanks [d, d] [a1, a2] e = App.assign_to_tanks [d] [a2] e := by
  have key : App.assign_prenorm [d, d] [a1, a2] e =
      App.assign_prenorm [d] [a2] e := by
    norm_num [App.assign_prenorm, App.sorted_data, sortByKey, insertByKey,
      App.theClusters, App.clusterLoop, App.assignClusters, App.tankOfCluster,
      dset, sub_self, abs_zero, zero_div, lt_self_iff_false]
  unfold App.assign_to_tanks
  rw [key]

/-- C8 witness: the overwrite equivalence at density 2000, assays 30 and
20, error rate 0.07. -/
theorem duplicate_density_overwrite_witness :
    (0 : ℚ) < 2000 ∧
    App.assign_to_tanks [2000, 2000] [30, 20] (7/100) =
      App.assign_to_tanks [2000] [20] (7/100) :=
  ⟨by norm_num, duplicate_density_overwrite 2000 30 20 (7/100) (by norm_num)⟩

/-! ## Claim C1 -/

theorem singleton_prenorm (d a e : ℚ) :
    App.assign_prenorm [d] [a] e =
      some ⟨[(d, a - a * e + (a * e - a * e * e + a * e * e * e) * e)],
            [(d, (a * e - a * e * e + a * e * e * e) -
                 (a * e - a * e * e + a * e * e * e) * e)],
            [(d, a * e * e - a * e * e * e)]⟩ := by
  norm_num [App.assign_prenorm, App.sorted_data, sortByKey, insertByKey,
    App.theClusters, App.clusterLoop, App.assignClusters, App.tankOfCluster,
    App.applyContamination, App.contamForward, dset, dgetD, dget]

theorem normalizeTank_singleton_pos (d x : ℚ) (h : 0 < x) :
    App.normalizeTank [(d, x)] = [(d, 100)] := by
  unfold App.normalizeTank
  have ht : tankTotal [(d, x)] = x := by simp [tankTotal]
  rw [ht, if_pos h]
  simp [div_self (ne_of_gt h)]

theorem normalizeTank_singleton_zero (d : ℚ) :
    App.normalizeTank [(d, 0)] = [(d, 0)] := by
  unfold App.normalizeTank
  norm_num [tankTotal]

/-- C1 counterexample: a single-component feed allocated with errorRate
0.07 leaves all three tanks non-empty (the contamination passes push
assay into tanks 2 and 3, each of which then normalizes the lone
component to 100 percent), where the claim demands exactly one non-empty
tank regardless of the error rate. -/
theorem single_component_counterexample :
    (App.assign_to_tanks [2500] [100] (7/100)).map App.nonemptyTankCount =
      some 3 := by
  norm_num [App.assign_to_tanks, App.assign_prenorm, App.sorted_data, sortByKey,
    insertByKey, App.theClusters, App.clusterLoop, App.assignClusters,
    App.tankOfCluster, App.applyContamination, App.contamForward, dset, dgetD,
    dget, App.normalizeTanks, App.normalizeTank, tankTotal,
    App.nonemptyTankCount]

/-- C1 (amended): for a single-component feed with positive assay the
engine always gives that component 100 percent of every tank that is
non-empty; tank 1 is always non-empty, and with errorRate 0 tanks 2 and
3 hold the component at assay 0, while with errorRate in (0,1) all three
tanks are non-empty at 100 percent. -/
theorem single_component_tanks (d a e : ℚ) (he0 : 0 ≤ e) (he1 : e < 1)
    (ha : 0 < a) (T : App.Tanks)
    (h : App.assign_to_tanks [d] [a] e = some T) :
    T.t1 = [(d, 100)] ∧
    (e = 0 → T.t2 = [(d, 0)] ∧ T.t3 = [(d, 0)]) ∧
    (0 < e → T.t2 = [(d, 100)] ∧ T.t3 = [(d, 100)]) := by
  unfold App.assign_to_tanks at h
  rw [singleton_prenorm] at h
  simp only [Option.map_some', Option.some.injEq] at h
  subst h
  unfold App.normalizeTanks
  simp only
  have hA : 0 < a - a * e + (a * e - a * e * e + a * e * e * e) * e := by
    nlinarith [mul_pos ha (sub_pos.2 he1),
      mul_nonneg (mul_nonneg (mul_nonneg ha.le he0) he0) (sub_pos.2 he1).le,
      mul_nonneg (mul_nonneg (mul_nonneg (mul_nonneg ha.le he0) he0) he0) he0]
  refine ⟨normalizeTank_singleton_pos _ _ hA, ?_, ?_⟩
  · intro he
    subst he
    norm_num [normalizeTank_singleton_zero]
  · intro he
    have hB : 0 < (a * e - a * e * e + a * e * e * e) -
        (a * e - a * e * e + a * e * e * e) * e := by
      nlinarith [mul_pos ha he, mul_pos (mul_pos ha he) he,
        mul_pos (mul_pos (mul_pos ha he) he) he, sub_pos.2 he1,
        mul_pos (mul_pos ha he) (sub_pos.2 he1),
        mul_pos (mul_pos (mul_pos ha he) (sub_pos.2 he1)) (sub_pos.2 he1)]
    have hC : 0 < a * e * e - a * e * e * e := by
      nlinarith [mul_pos (mul_pos (mul_pos ha he) he) (sub_pos.2 he1)]
    exact ⟨normalizeTank_singleton_pos _ _ hB, normalizeTank_singleton_pos _ _ hC⟩

/-- C1 witness: the amended statement at density 2500, assay 100, error
rate 0.07, whose result tanks are all the single component at 100. -/
theorem single_component_tanks_witness :
    (⟨[(2500, 100)], [(2500, 100)], [(2500, 100)]⟩ : App.Tanks).t1 =
        [(2500, 100)] ∧
    ((7 : ℚ)/100 = 0 →
      (⟨[(2500, 100)], [(2500, 100)], [(2500, 100)]⟩ : App.Tanks).t2 =
          [(2500, 0)] ∧
      (⟨[(2500, 100)], [(2500, 100)], [(2500, 100)]⟩ : App.Tanks).t3 =
          [(2500, 0)]) ∧
    (0 < (7 : ℚ)/100 →
      (⟨[(2500, 100)], [(2500, 100)], [(2500, 100)]⟩ : App.Tanks).t2 =
          [(2500, 100)] ∧
      (⟨[(2500, 100)], [(2500, 100)], [(2500, 100)]⟩ : App.Tanks).t3 =
          [(2500, 100)]) :=
  single_component_tanks 2500 100 (7/100) (by norm_num) (by norm_num)
    (by norm_num) ⟨[(2500, 100)], [(2500, 100)], [(2500, 100)]⟩
    (by norm_num [App.assign_to_tanks, App.assign_prenorm, App.sorted_data,
      sortByKey, insertByKey, App.theClusters, App.clusterLoop,
      App.assignClusters, App.tankOfCluster, App.applyContamination,
      App.contamForward, dset, dgetD, dget, App.normalizeTanks,
      App.normalizeTank, tankTotal])

/-! ## Claim C5 -/

theorem theClusters_sublist (densities assays : List ℚ) (cl : List (ℚ × ℚ))
    (h : cl ∈ App.theClusters densities assays) :
    cl.Sublist (App.sorted_data densities assays) := by
  unfold App.theClusters at h
  cases hs : App.sorted_data densities assays with
  | nil => rw [hs] at h; simp at h
  | cons p ps =>
    rw [hs] at h
    have hsub := clusterLoop_sublist ps [p] p.1 cl h
    simpa using hsub

theorem sorted_data_nonneg (densities assays : List ℚ)
    (ha : ∀ x ∈ assays, 0 ≤ x) :
    ∀ q ∈ App.sorted_data densities assays, 0 ≤ q.2 := by
  intro q hq
  unfold App.sorted_data at hq
  have hz : q ∈ densities.zip assays :=
    (sortByKey_perm Prod.fst (densities.zip assays)).subset hq
  obtain ⟨q1, q2⟩ := q
  exact ha q2 (List.of_mem_zip hz).2

theorem assignClusters_nonneg (cs : List (List (ℚ × ℚ))) (T0 : App.Tanks)
    (h : App.assignClusters cs = some T0)
    (hcs : ∀ cl ∈ cs, ∀ q ∈ cl, 0 ≤ q.2) :
    (∀ q ∈ T0.t1, 0 ≤ q.2) ∧ (∀ q ∈ T0.t2, 0 ≤ q.2) ∧
    (∀ q ∈ T0.t3, 0 ≤ q.2) := by
  match cs, h with
  | [], h =>
    simp only [App.assignClusters, Option.some.injEq] at h
    rw [← h]
    refine ⟨by simp, by simp, by simp⟩
  | [c1], h =>
    simp only [App.assignClusters, Option.some.injEq] at h
    rw [← h]
    exact ⟨tankOfCluster_nonneg c1 (hcs c1 (by simp)), by simp, by simp⟩
  | [c1, c2], h =>
    simp only [App.assignClusters, Option.some.injEq] at h
    rw [← h]
    exact ⟨tankOfCluster_nonneg c1 (hcs c1 (by simp)),
      tankOfCluster_nonneg c2 (hcs c2 (by simp)), by simp⟩
  | [c1, c2, c3], h =>
    simp only [App.assignClusters, Option.some.injEq] at h
    rw [← h]
    exact ⟨tankOfCluster_nonneg c1 (hcs c1 (by simp)),
      tankOfCluster_nonneg c2 (hcs c2 (by simp)),
      tankOfCluster_nonneg c3 (hcs c3 (by simp))⟩

theorem assign_prenorm_nonneg (densities assays : List ℚ) (e : ℚ)
    (P : App.Tanks) (he0 : 0 ≤ e) (he1 : e ≤ 1)
    (ha : ∀ x ∈ assays, 0 ≤ x)
    (h : App.assign_prenorm densities assays e = some P) :
    (∀ p ∈ P.t1, 0 ≤ p.2) ∧ (∀ p ∈ P.t2, 0 ≤ p.2) ∧
    (∀ p ∈ P.t3, 0 ≤ p.2) := by
  unfold App.assign_prenorm at h
  cases hs : App.sorted_data densities assays with
  | nil => rw [hs] at h; simp at h
  | cons p ps =>
    rw [hs] at h
    cases hc : App.assignClusters (App.theClusters densities assays) with
    | none => rw [hc] at h; simp at h
    | some T0 =>
      rw [hc] at h
      simp only [Option.map_some', Option.some.injEq] at h
      have hcl : ∀ cl ∈ App.theClusters densities assays, ∀ q ∈ cl, 0 ≤ q.2 := by
        intro cl hcl q hq
        exact sorted_data_nonneg densities assays ha q
          ((theClusters_sublist densities assays cl hcl).subset hq)
      have hT0 := assignClusters_nonneg _ T0 hc hcl
      rw [← h]
      exact applyContamination_nonneg e he0 he1 T0 hT0.1 hT0.2.1 hT0.2.2

/-- Property of one pre-normalization tank: a positive total normalizes
to percentages summing to exactly 100, while a zero total leaves the
tank untouched by normalization with every stored assay equal to 0 (so
no division by zero is ever attempted). -/
def tankOk (t : List (ℚ × ℚ)) : Prop :=
  (0 < tankTotal t → tankTotal (App.normalizeTank t) = 100) ∧
  (tankTotal t = 0 → App.normalizeTank t = t ∧ ∀ p ∈ t, p.2 = 0)

/-- C5: for error rates in [0,1) and a feed with positive densities and
nonnegative assays, the full engine output is the normalization of the
post-contamination tanks, and each post-contamination tank either has a
positive total - in which case its normalized assays sum to exactly 100 -
or a zero total - in which case normalization leaves it untouched and
all its assays are 0, so no division by zero occurs. -/
theorem normalization_sound (densities assays : List ℚ) (e : ℚ)
    (P : App.Tanks) (he0 : 0 ≤ e) (he1 : e < 1)
    (hd : ∀ x ∈ densities, 0 < x) (ha : ∀ x ∈ assays, 0 ≤ x)
    (h : App.assign_prenorm densities assays e = some P) :
    App.assign_to_tanks densities assays e = some (App.normalizeTanks P) ∧
    tankOk P.t1 ∧ tankOk P.t2 ∧ tankOk P.t3 := by
  have hnn := assign_prenorm_nonneg densities assays e P he0 he1.le ha h
  have htk : ∀ t : List (ℚ × ℚ), (∀ p ∈ t, 0 ≤ p.2) → tankOk t := by
    intro t hnnt
    constructor
    · intro hpos
      exact tankTotal_normalizeTank t hpos
    · intro hz
      refine ⟨normalizeTank_of_not_pos t (by rw [hz]; exact lt_irrefl 0), ?_⟩
      exact tankTotal_zero_all_zero t hnnt hz
  refine ⟨?_, htk P.t1 hnn.1, htk P.t2 hnn.2.1, htk P.t3 hnn.2.2⟩
  unfold App.assign_to_tanks
  rw [h]
  rfl

/-- C5 witness: the single-component feed with error rate 0, whose
post-contamination tanks are explicit, discharging every hypothesis. -/
theorem normalization_sound_witness :
    App.assign_to_tanks [2500] [100] 0 =
      some (App.normalizeTanks ⟨[(2500, 100)], [(2500, 0)], [(2500, 0)]⟩) ∧
    tankOk [(2500, 100)] ∧ tankOk [(2500, 0)] ∧ tankOk [(2500, 0)] :=
  normalization_sound [2500] [100] 0
    ⟨[(2500, 100)], [(2500, 0)], [(2500, 0)]⟩
    le_rfl (by norm_num)
    (by intro x hx; rw [List.mem_singleton] at hx; rw [hx]; norm_num)
    (by intro x hx; rw [List.mem_singleton] at hx; rw [hx]; norm_num)
    (by norm_num [App.assign_prenorm, App.sorted_data, sortByKey, insertByKey,
      App.theClusters, App.clusterLoop, App.assignClusters, App.tankOfCluster,
      App.applyContamination, App.contamForward, dset, dgetD, dget])

/-! ## Claim C9 -/

theorem dgetD_zero_of_dget_none (t : List (ℚ × ℚ)) (k : ℚ)
    (h : dget t k = none) : dgetD t k 0 = 0 := by
  unfold dgetD
  rw [h]
  rfl

theorem dgetD_normalizeTank_zero (t : List (ℚ × ℚ)) (k : ℚ)
    (h : dgetD t k 0 = 0) : dgetD (App.normalizeTank t) k 0 = 0 := by
  rw [dgetD_normalizeTank, h]
  split_ifs with hp
  · rw [zero_div, zero_mul]
  · rfl

/-- C9 counterexample: with errorRate 0 on a single-component feed, the
pre-transfer cluster assignment puts the component only in tank 1 (tanks
2 and 3 are empty dicts), but the returned result carries the
component's density key in tanks 2 and 3 as zero-valued entries created
by the transfer statements: the component does appear, as a dict entry,
in tanks other than its own cluster's tank, and the result is not
structurally the normalized pre-transfer assignment. -/
theorem zero_rate_key_insertion_counterexample :
    App.assign_to_tanks [2500] [100] 0 =
      some ⟨[(2500, 100)], [(2500, 0)], [(2500, 0)]⟩ ∧
    App.assignClusters (App.theClusters [2500] [100]) =
      some ⟨[(2500, 100)], [], []⟩ := by
  constructor
  · norm_num [App.assign_to_tanks, App.assign_prenorm, App.sorted_data,
      sortByKey, insertByKey, App.theClusters, App.clusterLoop,
      App.assignClusters, App.tankOfCluster, App.applyContamination,
      App.contamForward, dset, dgetD, dget, App.normalizeTanks,
      App.normalizeTank, tankTotal]
  · norm_num [App.sorted_data, sortByKey, insertByKey, App.theClusters,
      App.clusterLoop, App.assignClusters, App.tankOfCluster, dset]

/-- C9 (amended): with errorRate 0 no assay is transferred.  The
post-contamination tanks agree with the pre-transfer cluster assignment
in total and in every per-density assay read with default 0 (the
transfer statements only add zero-valued dict entries), the final
composition read the same way equals the normalized pre-transfer
assignment, and a density absent from a tank's cluster reads 0 in that
tank of the result. -/
theorem zero_error_rate_composition (densities assays : List ℚ)
    (C0 P T : App.Tanks) (hd : ∀ x ∈ densities, 0 < x)
    (hC : App.assignClusters (App.theClusters densities assays) = some C0)
    (hP : App.assign_prenorm densities assays 0 = some P)
    (hT : App.assign_to_tanks densities assays 0 = some T) :
    (sameComposition P.t1 C0.t1 ∧ sameComposition P.t2 C0.t2 ∧
     sameComposition P.t3 C0.t3) ∧
    (∀ k, dgetD T.t1 k 0 = dgetD (App.normalizeTank C0.t1) k 0 ∧
          dgetD T.t2 k 0 = dgetD (App.normalizeTank C0.t2) k 0 ∧
          dgetD T.t3 k 0 = dgetD (App.normalizeTank C0.t3) k 0) ∧
    (∀ k, (dget C0.t1 k = none → dgetD T.t1 k 0 = 0) ∧
          (dget C0.t2 k = none → dgetD T.t2 k 0 = 0) ∧
          (dget C0.t3 k = none → dgetD T.t3 k 0 = 0)) := by
  have hPC : P = App.applyContamination 0 C0 := by
    unfold App.assign_prenorm at hP
    cases hs : App.sorted_data densities assays with
    | nil => rw [hs] at hP; simp at hP
    | cons p ps =>
      rw [hs, hC] at hP
      simp only [Option.map_some', Option.some.injEq] at hP
      exact hP.symm
  have hTP : T = App.normalizeTanks P := by
    unfold App.assign_to_tanks at hT
    rw [hP] at hT
    simp only [Option.map_some', Option.some.injEq] at hT
    exact hT.symm
  subst hPC
  subst hTP
  have hz := applyContamination_zero C0
  refine ⟨hz, ?_, ?_⟩
  · intro k
    exact ⟨sameComposition_normalize hz.1 k,
      sameComposition_normalize hz.2.1 k,
      sameComposition_normalize hz.2.2 k⟩
  · intro k
    refine ⟨fun hn => ?_, fun hn => ?_, fun hn => ?_⟩
    · exact dgetD_normalizeTank_zero _ k
        ((hz.1.2 k).trans (dgetD_zero_of_dget_none _ k hn))
    · exact dgetD_normalizeTank_zero _ k
        ((hz.2.1.2 k).trans (dgetD_zero_of_dget_none _ k hn))
    · exact dgetD_normalizeTank_zero _ k
        ((hz.2.2.2 k).trans (dgetD_zero_of_dget_none _ k hn))

/-- C9 witness: the single-component feed at errorRate 0, with the
cluster assignment, post-contamination tanks and final result all
explicit. -/
theorem zero_error_rate_composition_witness :
    (sameComposition [(2500, 100)] [(2500, 100)] ∧
     sameComposition [(2500, 0)] ([] : List (ℚ × ℚ)) ∧
     sameComposition [(2500, 0)] ([] : List (ℚ × ℚ))) ∧
    (∀ k, dgetD [(2500, 100)] k 0 = dgetD (App.normalizeTank [(2500, 100)]) k 0 ∧
          dgetD [(2500, 0)] k 0 = dgetD (App.normalizeTank []) k 0 ∧
          dgetD [(2500, 0)] k 0 = dgetD (App.normalizeTank []) k 0) ∧
    (∀ k, (dget [(2500, 100)] k = none → dgetD [(2500, 100)] k 0 = 0) ∧
          (dget ([] : List (ℚ × ℚ)) k = none → dgetD [(2500, 0)] k 0 = 0) ∧
          (dget ([] : List (ℚ × ℚ)) k = none → dgetD [(2500, 0)] k 0 = 0)) := by
  have h := zero_error_rate_composition [2500] [100]
    ⟨[(2500, 100)], [], []⟩
    ⟨[(2500, 100)], [(2500, 0)], [(2500, 0)]⟩
    ⟨[(2500, 100)], [(2500, 0)], [(2500, 0)]⟩
    (by intro x hx; rw [List.mem_singleton] at hx; rw [hx]; norm_num)
    (by norm_num [App.sorted_data, sortByKey, insertByKey, App.theClusters,
      App.clusterLoop, App.assignClusters, App.tankOfCluster, dset])
    (by norm_num [App.assign_prenorm, App.sorted_data, sortByKey, insertByKey,
      App.theClusters, App.clusterLoop, App.assignClusters, App.tankOfCluster,
      App.applyContamination, App.contamForward, dset, dgetD, dget])
    (by norm_num [App.assign_to_tanks, App.assign_prenorm, App.sorted_data,
      sortByKey, insertByKey, App.theClusters, App.clusterLoop,
      App.assignClusters, App.tankOfCluster, App.applyContamination,
      App.contamForward, dset, dgetD, dget, App.normalizeTanks,
      App.normalizeTank, tankTotal])
  refine ⟨h.1, ?_, ?_⟩
  · intro k
    exact h.2.1 k
  · intro k
    exact h.2.2 k

/-! ## Claim C10 -/

theorem assignClusters_grandTotal (cs : List (List (ℚ × ℚ))) (T0 : App.Tanks)
    (h : App.assignClusters cs = some T0)
    (hnd : ∀ cl ∈ cs, (cl.map Prod.fst).Nodup) :
    App.grandTotal T0 = (cs.map tankTotal).sum := by
  match cs, h with
  | [], h =>
    simp only [App.assignClusters, Option.some.injEq] at h
    rw [← h]
    simp [App.grandTotal, tankTotal]
  | [c1], h =>
    simp only [App.assignClusters, Option.some.injEq] at h
    rw [← h]
    simp only [App.grandTotal, List.map_cons, List.map_nil, List.sum_cons,
      List.sum_nil]
    rw [tankOfCluster_total c1 (hnd c1 (by simp))]
    simp [tankTotal]
  | [c1, c2], h =>
    simp only [App.assignClusters, Option.some.injEq] at h
    rw [← h]
    simp only [App.grandTotal, List.map_cons, List.map_nil, List.sum_cons,
      List.sum_nil]
    rw [tankOfCluster_total c1 (hnd c1 (by simp)),
      tankOfCluster_total c2 (hnd c2 (by simp))]
    simp [tankTotal]
  | [c1, c2, c3], h =>
    simp only [App.assignClusters, Option.some.injEq] at h
    rw [← h]
    simp only [App.grandTotal, List.map_cons, List.map_nil, List.sum_cons,
      List.sum_nil]
    rw [tankOfCluster_total c1 (hnd c1 (by simp)),
      tankOfCluster_total c2 (hnd c2 (by simp)),
      tankOfCluster_total c3 (hnd c3 (by simp))]
    simp only [tankTotal]
    ring

/-- C10: for a feed of pairwise-distinct positive densities (one assay
per density) and any error rate in [0,1), the total assay over the three
tanks immediately after both cross-contamination passes equals the sum
of the input assays: cluster assignment loses nothing when keys are
distinct, and every transfer removes from one tank exactly what it adds
to the adjacent tank. -/
theorem mass_conserved_prenorm (densities assays : List ℚ) (e : ℚ)
    (P : App.Tanks) (hlen : densities.length = assays.length)
    (hnd : densities.Nodup) (hd : ∀ x ∈ densities, 0 < x)
    (he0 : 0 ≤ e) (he1 : e < 1)
    (h : App.assign_prenorm densities assays e = some P) :
    App.grandTotal P = assays.sum := by
  unfold App.assign_prenorm at h
  cases hs : App.sorted_data densities assays with
  | nil => rw [hs] at h; simp at h
  | cons p ps =>
    rw [hs] at h
    cases hc : App.assignClusters (App.theClusters densities assays) with
    | none => rw [hc] at h; simp at h
    | some T0 =>
      rw [hc] at h
      simp only [Option.map_some', Option.some.injEq] at h
      rw [← h, applyContamination_total]
      have hperm : (App.sorted_data densities assays).Perm
          (densities.zip assays) :=
        sortByKey_perm Prod.fst (densities.zip assays)
      have hkeys : ((App.sorted_data densities assays).map Prod.fst).Nodup := by
        rw [(hperm.map Prod.fst).nodup_iff]
        rw [List.map_fst_zip densities assays (le_of_eq hlen)]
        exact hnd
      have hclnd : ∀ cl ∈ App.theClusters densities assays,
          (cl.map Prod.fst).Nodup := by
        intro cl hcl
        exact hkeys.sublist
          ((theClusters_sublist densities assays cl hcl).map Prod.fst)
      have hgt := assignClusters_grandTotal _ T0 hc hclnd
      have hteq : App.theClusters densities assays =
          App.clusterLoop [p] p.1 ps := by
        unfold App.theClusters
        rw [hs]
      have hcltot : ((App.theClusters densities assays).map tankTotal).sum =
          tankTotal (App.sorted_data densities assays) := by
        rw [hteq, clusterLoop_total ps [p] p.1, hs, tankTotal_cons]
        simp [tankTotal]
      have hsorted_sum : tankTotal (App.sorted_data densities assays) =
          assays.sum := by
        unfold tankTotal App.sorted_data
        rw [((sortByKey_perm Prod.fst (densities.zip assays)).map
          Prod.snd).sum_eq]
        rw [List.map_snd_zip densities assays (le_of_eq hlen.symm)]
      rw [hgt, hcltot, hsorted_sum]

/-- C10 witness: the single-component feed at error rate 0; its
post-contamination grand total is 100, the sum of the input assays. -/
theorem mass_conserved_prenorm_witness :
    App.grandTotal ⟨[(2500, 100)], [(2500, 0)], [(2500, 0)]⟩ =
      List.sum [(100 : ℚ)] :=
  mass_conserved_prenorm [2500] [100] 0
    ⟨[(2500, 100)], [(2500, 0)], [(2500, 0)]⟩
    rfl (by simp)
    (by intro x hx; rw [List.mem_singleton] at hx; rw [hx]; norm_num)
    le_rfl (by norm_num)
    (by norm_num [App.assign_prenorm, App.sorted_data, sortByKey, insertByKey,
      App.theClusters, App.clusterLoop, App.assignClusters, App.tankOfCluster,
      App.applyContamination, App.contamForward, dset, dgetD, dget])
